import Mathlib

/-!
# EchoTrace core: shallow embedding and verification

This file embeds the algorithmic core of the EchoTrace repository
(`src/echotrace/monitors.py` and `src/echotrace/sound_engine.py`) into
Lean and proves properties of the embedded definitions.

Modelling conventions:
* Python floats are idealized as real numbers; `int(x)` on a non-negative
  float is `Int.toNat ∘ Int.floor`.
* `x ** 0.5` is applied in the source only to a population variance, which
  is non-negative, so it is embedded as `Real.sqrt`.
* numpy arrays of samples are `List ℝ`; elementwise addition of two
  equal-length arrays is `List.zipWith (+)`.
* `np.random.uniform (-1, 1, n)` is modelled by an explicit draw source
  `u : ℕ → ℝ` supplied by the caller; `generate_soundscape` gives each
  render call its own source `u i`.
* `np.max` over an empty array raises in numpy, so peak normalization
  returns `Option (List ℝ)`, with `none` for the empty buffer.
-/

namespace EchoTrace

/-! ## Rolling-history statistics (`monitors.py`)

Each scorer reads `list(self.history)[-10:]`, i.e. the last 10 entries of
the rolling history, and computes mean / population variance of a scalar
extracted from each entry.  The history is embedded as the list of those
scalars (for the sensor family, of the record of the three scalars used). -/

/-- `list(history)[-n:]` — the last `n` elements of a list. -/
def lastN (n : ℕ) (l : List α) : List α := l.drop (l.length - n)

/-- `sum(values) / len(values)` (arithmetic mean; `0` on the empty list,
which never occurs in the source because scoring requires 10 samples). -/
noncomputable def meanOf (l : List ℝ) : ℝ := l.sum / l.length

/-- `sum((x - avg) ** 2 for x in values) / len(values)` — population
variance about the mean of the same list. -/
noncomputable def varianceOf (l : List ℝ) : ℝ :=
  (l.map (fun x => (x - meanOf l) ^ 2)).sum / l.length

/-- `variance ** 0.5`; the variance is non-negative, so the Python power
is the real square root. -/
noncomputable def stdDevOf (l : List ℝ) : ℝ := Real.sqrt (varianceOf l)

/-- `CPUMonitor.get_anomaly_score`: `min(std_dev / 50.0, 1.0)` on the last
10 `cpu_percent` values, `0.0` before 10 samples exist. -/
noncomputable def cpuAnomalyScore (history : List ℝ) : ℝ :=
  if history.length < 10 then 0
  else min (stdDevOf (lastN 10 history) / 50) 1

/-- `NetworkMonitor.get_anomaly_score`: coefficient of variation
`std_dev / (avg + 1e-6)` of the last 10 `total_bytes_rate` values, capped
at `1.0`; `0.0` before 10 samples, and `0.0` when the mean is exactly 0. -/
noncomputable def networkAnomalyScore (history : List ℝ) : ℝ :=
  if history.length < 10 then 0
  else
    let recent := lastN 10 history
    if meanOf recent = 0 then 0
    else min (stdDevOf recent / (meanOf recent + 1e-6)) 1

/-- The three scalars `SensorMonitor.get_anomaly_score` reads from each
history entry. -/
structure SensorSample where
  memory_percent : ℝ
  disk_read_rate : ℝ
  disk_write_rate : ℝ

/-- `SensorMonitor.get_anomaly_score`: blends the mean memory level
(`avg_memory / 100`) with disk-rate dispersion at weight 0.5 / 0.5,
capped at `1.0`; `0.0` before 10 samples. -/
noncomputable def sensorAnomalyScore (history : List SensorSample) : ℝ :=
  if history.length < 10 then 0
  else
    let recent_memory := (lastN 10 history).map (fun s => s.memory_percent)
    let memory_score := meanOf recent_memory / 100
    let recent_disk := (lastN 10 history).map
      (fun s => s.disk_read_rate + s.disk_write_rate)
    let avg_disk := meanOf recent_disk
    let disk_score :=
      if avg_disk > 0 then min (stdDevOf recent_disk / (avg_disk + 1e-6)) 1
      else 0
    min (memory_score * 0.5 + disk_score * 0.5) 1

/-- `TimingMonitor.get_anomaly_score`: `min(avg_jitter / 1.0, 1.0)` on the
last 10 `jitter` values, `0.0` before 10 samples. -/
noncomputable def timingAnomalyScore (history : List ℝ) : ℝ :=
  if history.length < 10 then 0
  else min (meanOf (lastN 10 history) / 1) 1

/-! ## Waveform synthesis (`sound_engine.py`) -/

/-- `int(self.sample_rate * duration)` — the sample count of a buffer. -/
noncomputable def numSamples (rate : ℕ) (duration : ℝ) : ℕ :=
  (⌊(rate : ℝ) * duration⌋).toNat

/-- `np.linspace(0, duration, n, False)`: `n` evenly spaced points from 0
with the endpoint excluded, i.e. `i * (duration / n)`. -/
noncomputable def linspaceOpen (duration : ℝ) (n : ℕ) : List ℝ :=
  (List.range n).map (fun i : ℕ => duration / n * (i : ℝ))

/-- `np.linspace(a, b, n)` with the endpoint included:
`a + (b - a) * i / (n - 1)`, and the single point `a` when `n = 1`. -/
noncomputable def linspaceClosed (a b : ℝ) (n : ℕ) : List ℝ :=
  if n = 1 then [a]
  else (List.range n).map (fun i : ℕ => a + (b - a) * (i : ℝ) / ((n : ℝ) - 1))

/-- `int(self.sample_rate * 0.01)` — the 10 ms fade window length. -/
noncomputable def fadeSamples (rate : ℕ) : ℕ := (⌊(rate : ℝ) * 0.01⌋).toNat

/-- The envelope of `generate_tone`: all ones, with a linear fade-in and
fade-out of `fadeSamples rate` samples overwritten at the two ends when
`num_samples > 2 * fade_samples`. -/
noncomputable def envelopeList (rate : ℕ) (n : ℕ) : List ℝ :=
  let fade := fadeSamples rate
  if 2 * fade < n then
    linspaceClosed 0 1 fade ++ List.replicate (n - 2 * fade) 1
      ++ linspaceClosed 1 0 fade
  else List.replicate n 1

/-- `SoundEngine.generate_tone`: a sine wave
`amplitude * sin(2 π frequency t)` with the fade envelope applied. -/
noncomputable def generate_tone (rate : ℕ) (frequency duration amplitude : ℝ) :
    List ℝ :=
  let n := numSamples rate duration
  let tone := (linspaceOpen duration n).map
    (fun x => amplitude * Real.sin (2 * Real.pi * frequency * x))
  List.zipWith (fun a b => a * b) tone (envelopeList rate n)

/-- `SoundEngine.generate_pulse`: carrier sine multiplied by the rectified
modulator `(1 + sin(2 π pulse_rate t)) / 2`, scaled by `amplitude`. -/
noncomputable def generate_pulse
    (rate : ℕ) (frequency pulse_rate duration amplitude : ℝ) : List ℝ :=
  (linspaceOpen duration (numSamples rate duration)).map
    (fun x => amplitude * Real.sin (2 * Real.pi * frequency * x) *
      ((1 + Real.sin (2 * Real.pi * pulse_rate * x)) / 2))

/-- `SoundEngine.generate_noise`: `amplitude * uniform(-1, 1, n)`, with the
random draws supplied as `u`. -/
noncomputable def generate_noise (rate : ℕ) (u : ℕ → ℝ) (duration amplitude : ℝ) :
    List ℝ :=
  (List.range (numSamples rate duration)).map (fun i => amplitude * u i)

/-- The metrics dictionary consumed by `metrics_to_sound`: each of the four
fields read via `metrics.get(key, default)` may be absent. -/
structure MetricsRecord where
  cpu_percent : Option ℝ := none
  network_rate : Option ℝ := none
  memory_percent : Option ℝ := none
  anomaly_score : Option ℝ := none

/-- `metrics.get("cpu_percent", 50.0)` then
`base_freq = 200 + (cpu_percent / 100.0) * 600`. -/
noncomputable def renderBaseFreq (m : MetricsRecord) : ℝ :=
  200 + m.cpu_percent.getD 50 / 100 * 600

/-- `pulse_rate = 1.0 + min(network_rate / 10_000_000, 1.0) * 9.0`. -/
noncomputable def renderPulseRate (m : MetricsRecord) : ℝ :=
  1 + min (m.network_rate.getD 0 / 10000000) 1 * 9

/-- `amplitude = 0.1 + (memory_percent / 100.0) * 0.4`. -/
noncomputable def renderAmplitude (m : MetricsRecord) : ℝ :=
  0.1 + m.memory_percent.getD 50 / 100 * 0.4

/-- The branch condition `network_rate > 100` selecting the pulse path. -/
abbrev pulseTaken (m : MetricsRecord) : Prop := m.network_rate.getD 0 > 100

/-- The branch condition `anomaly_score > 0.3` adding the dissonant tone. -/
abbrev dissonanceTaken (m : MetricsRecord) : Prop := m.anomaly_score.getD 0 > 0.3

/-- The branch condition `anomaly_score > 0.6` adding white noise. -/
abbrev noiseTaken (m : MetricsRecord) : Prop := m.anomaly_score.getD 0 > 0.6

/-- `dissonant_freq = base_freq * 1.414` (the source comment calls the
constant "sqrt(2) - tritone"). -/
noncomputable def dissonantFrequency (m : MetricsRecord) : ℝ :=
  renderBaseFreq m * 1.414

/-- Elementwise numpy addition of two equal-length sample buffers. -/
noncomputable def addBuf (a b : List ℝ) : List ℝ :=
  List.zipWith (fun x y => x + y) a b

/-- The base sound of `metrics_to_sound`: pulse when `network_rate > 100`,
plain tone otherwise. -/
noncomputable def baseSound (rate : ℕ) (m : MetricsRecord) (duration : ℝ) :
    List ℝ :=
  if pulseTaken m then
    generate_pulse rate (renderBaseFreq m) (renderPulseRate m) duration
      (renderAmplitude m)
  else generate_tone rate (renderBaseFreq m) duration (renderAmplitude m)

/-- The dissonance stage of `metrics_to_sound`: when `anomaly_score > 0.3`,
add a tone at `base_freq * 1.414` with amplitude
`amplitude * anomaly_score * 0.5`. -/
noncomputable def withDissonance (rate : ℕ) (m : MetricsRecord) (duration : ℝ)
    (sound : List ℝ) : List ℝ :=
  if dissonanceTaken m then
    addBuf sound (generate_tone rate (dissonantFrequency m) duration
      (renderAmplitude m * m.anomaly_score.getD 0 * 0.5))
  else sound

/-- The noise stage of `metrics_to_sound`: when `anomaly_score > 0.6`, add
white noise with amplitude `amplitude * anomaly_score * 0.3`. -/
noncomputable def withNoise (rate : ℕ) (u : ℕ → ℝ) (m : MetricsRecord)
    (duration : ℝ) (sound : List ℝ) : List ℝ :=
  if noiseTaken m then
    addBuf sound (generate_noise rate u duration
      (renderAmplitude m * m.anomaly_score.getD 0 * 0.3))
  else sound

/-- The sample buffer of `metrics_to_sound` before peak normalization. -/
noncomputable def preRender (rate : ℕ) (u : ℕ → ℝ) (m : MetricsRecord)
    (duration : ℝ) : List ℝ :=
  withNoise rate u m duration
    (withDissonance rate m duration (baseSound rate m duration))

/-- `np.max(np.abs(sound))` for a non-empty buffer (with base value 0,
which agrees with numpy on non-empty buffers since `|x| ≥ 0`). -/
noncomputable def maxAbs (l : List ℝ) : ℝ :=
  (l.map (fun x => |x|)).foldr max 0

/-- The peak-normalization step: `np.max` raises on an empty buffer
(modelled as `none`); otherwise divide every sample by the peak when the
peak exceeds `1.0`, and return the buffer unchanged otherwise. -/
noncomputable def normalize (l : List ℝ) : Option (List ℝ) :=
  if l = [] then none
  else if maxAbs l > 1 then some (l.map (fun x => x / maxAbs l)) else some l

/-- `SoundEngine.metrics_to_sound`: map the record to acoustic parameters,
synthesize the staged sound, then peak-normalize. -/
noncomputable def metrics_to_sound (rate : ℕ) (u : ℕ → ℝ) (m : MetricsRecord)
    (duration : ℝ) : Option (List ℝ) :=
  normalize (preRender rate u m duration)

/-- `SoundEngine.generate_soundscape`: empty input yields an empty buffer;
otherwise concatenate `metrics_to_sound` of each record in order (record
`i` drawing noise from `u i`). -/
noncomputable def generate_soundscape (rate : ℕ) (u : ℕ → ℕ → ℝ)
    (metrics_list : List MetricsRecord) (duration_per_sample : ℝ) :
    Option (List ℝ) :=
  if metrics_list.isEmpty then some []
  else
    (metrics_list.enum.mapM
      (fun p => metrics_to_sound rate (u p.1) p.2 duration_per_sample)).map
      (fun sounds => sounds.flatten)

/-- The record with every absent field replaced by the default that
`metrics.get` substitutes: 50.0, 0.0, 50.0, 0.0. -/
noncomputable def fillDefaults (m : MetricsRecord) : MetricsRecord :=
  ⟨some (m.cpu_percent.getD 50), some (m.network_rate.getD 0),
    some (m.memory_percent.getD 50), some (m.anomaly_score.getD 0)⟩

/-! ## Helper lemmas: buffer lengths -/

theorem length_linspaceOpen (d : ℝ) (n : ℕ) : (linspaceOpen d n).length = n := by
  rw [linspaceOpen, List.length_map, List.length_range]

theorem length_linspaceClosed (a b : ℝ) (n : ℕ) :
    (linspaceClosed a b n).length = n := by
  unfold linspaceClosed
  split
  · simp only [List.length_singleton]
    omega
  · rw [List.length_map, List.length_range]

theorem length_envelopeList (rate n : ℕ) : (envelopeList rate n).length = n := by
  rw [envelopeList]
  split
  · rw [List.length_append, List.length_append, length_linspaceClosed,
      List.length_replicate, length_linspaceClosed]
    omega
  · exact List.length_replicate ..

theorem length_generate_tone (rate : ℕ) (f d a : ℝ) :
    (generate_tone rate f d a).length = numSamples rate d := by
  simp [generate_tone, length_linspaceOpen, length_envelopeList]

theorem length_generate_pulse (rate : ℕ) (f p d a : ℝ) :
    (generate_pulse rate f p d a).length = numSamples rate d := by
  simp [generate_pulse, length_linspaceOpen]

theorem length_generate_noise (rate : ℕ) (u : ℕ → ℝ) (d a : ℝ) :
    (generate_noise rate u d a).length = numSamples rate d := by
  simp [generate_noise]

theorem length_addBuf (a b : List ℝ) :
    (addBuf a b).length = min a.length b.length := by
  simp [addBuf]

theorem length_baseSound (rate : ℕ) (m : MetricsRecord) (d : ℝ) :
    (baseSound rate m d).length = numSamples rate d := by
  unfold baseSound
  split
  · exact length_generate_pulse ..
  · exact length_generate_tone ..

theorem length_preRender (rate : ℕ) (u : ℕ → ℝ) (m : MetricsRecord) (d : ℝ) :
    (preRender rate u m d).length = numSamples rate d := by
  unfold preRender withNoise withDissonance
  split <;> split <;>
    simp [length_addBuf, length_generate_noise, length_generate_tone,
      length_baseSound]

/-! ## Helper lemmas: peaks and normalization -/

theorem maxAbs_nonneg (l : List ℝ) : 0 ≤ maxAbs l := by
  induction l with
  | nil => simp [maxAbs]
  | cons x t ih =>
      simp only [maxAbs, List.map_cons, List.foldr_cons]
      exact le_max_of_le_right ih

theorem abs_le_maxAbs {x : ℝ} {l : List ℝ} (hx : x ∈ l) : |x| ≤ maxAbs l := by
  induction l with
  | nil => cases hx
  | cons y t ih =>
      simp only [maxAbs, List.map_cons, List.foldr_cons]
      rcases List.mem_cons.mp hx with h | h
      · exact h ▸ le_max_left _ _
      · exact le_max_of_le_right (ih h)

theorem maxAbs_le {c : ℝ} {l : List ℝ} (hc : 0 ≤ c)
    (h : ∀ x ∈ l, |x| ≤ c) : maxAbs l ≤ c := by
  induction l with
  | nil => simpa [maxAbs] using hc
  | cons y t ih =>
      simp only [maxAbs, List.map_cons, List.foldr_cons]
      exact max_le (h y (List.mem_cons_self y t))
        (ih fun x hx => h x (List.mem_cons_of_mem y hx))

/-- Full behaviour of the peak-normalization step on a non-empty buffer. -/
theorem normalize_spec (l : List ℝ) (h : l ≠ []) :
    ∃ b, normalize l = some b ∧ b.length = l.length ∧ maxAbs b ≤ 1 ∧
      (1 < maxAbs l → b = l.map (fun x => x / maxAbs l)) ∧
      (maxAbs l ≤ 1 → b = l) := by
  unfold normalize
  rw [if_neg h]
  by_cases hm : maxAbs l > 1
  · rw [if_pos hm]
    refine ⟨_, rfl, by simp, ?_, fun _ => rfl, fun hle => absurd hm (not_lt.mpr hle)⟩
    have hpos : (0 : ℝ) < maxAbs l := lt_trans one_pos hm
    refine maxAbs_le zero_le_one ?_
    intro x hx
    rcases List.mem_map.mp hx with ⟨y, hy, rfl⟩
    rw [abs_div, abs_of_pos hpos, div_le_one hpos]
    exact abs_le_maxAbs hy
  · rw [if_neg hm]
    exact ⟨l, rfl, rfl, not_lt.mp hm, fun hlt => absurd hlt hm, fun _ => rfl⟩

theorem metrics_to_sound_eq (rate : ℕ) (u : ℕ → ℝ) (m : MetricsRecord) (d : ℝ) :
    metrics_to_sound rate u m d = normalize (preRender rate u m d) := rfl

/-- When the duration yields at least one sample, rendering succeeds and
returns a buffer of exactly `numSamples rate d` samples. -/
theorem metrics_to_sound_some (rate : ℕ) (u : ℕ → ℝ) (m : MetricsRecord)
    (d : ℝ) (hn : 1 ≤ numSamples rate d) :
    ∃ b, metrics_to_sound rate u m d = some b ∧
      b.length = numSamples rate d ∧ maxAbs b ≤ 1 := by
  have hne : preRender rate u m d ≠ [] := by
    apply List.ne_nil_of_length_pos
    rw [length_preRender]
    omega
  obtain ⟨b, hb, hlen, hle, -, -⟩ := normalize_spec _ hne
  exact ⟨b, hb, by rw [hlen, length_preRender], hle⟩

/-! ## Helper lemmas: concrete sample counts -/

theorem numSamples_22050_tenth : numSamples 22050 (0.1 : ℝ) = 2205 := by
  have h : ((22050 : ℕ) : ℝ) * (0.1 : ℝ) = ((2205 : ℕ) : ℝ) := by
    push_cast
    norm_num
  rw [numSamples, h, Int.floor_natCast]
  rfl

theorem numSamples_22050_zero : numSamples 22050 (0 : ℝ) = 0 := by
  simp [numSamples]

/-- A metrics record with all four consumed fields absent. -/
noncomputable def emptyRecord : MetricsRecord := ⟨none, none, none, none⟩

/-! ## Claim theorems -/

/-- C1: for every metrics record with non-negative `cpu_percent`,
`network_rate`, `memory_percent` and `anomaly_score`, and every duration
yielding at least one sample, `metrics_to_sound` returns a buffer whose
maximum absolute sample is at most 1.0: whenever the pre-normalization
peak exceeds 1.0 every sample is divided by that peak, and a buffer whose
peak is already at most 1.0 is returned unchanged. -/
theorem c1_render_normalized (rate : ℕ) (u : ℕ → ℝ) (m : MetricsRecord)
    (d : ℝ) (h1 : 0 ≤ m.cpu_percent.getD 50) (h2 : 0 ≤ m.network_rate.getD 0)
    (h3 : 0 ≤ m.memory_percent.getD 50) (h4 : 0 ≤ m.anomaly_score.getD 0)
    (hn : 1 ≤ numSamples rate d) :
    ∃ buf, metrics_to_sound rate u m d = some buf ∧ maxAbs buf ≤ 1 ∧
      (1 < maxAbs (preRender rate u m d) →
        buf = (preRender rate u m d).map
          (fun x => x / maxAbs (preRender rate u m d))) ∧
      (maxAbs (preRender rate u m d) ≤ 1 → buf = preRender rate u m d) := by
  have hne : preRender rate u m d ≠ [] := by
    apply List.ne_nil_of_length_pos
    rw [length_preRender]
    omega
  obtain ⟨b, hb, -, hle, hA, hB⟩ := normalize_spec _ hne
  exact ⟨b, hb, hle, hA, hB⟩

/-- Witness for C1 at the all-absent record, rate 22050 Hz, duration 0.1 s. -/
theorem c1_render_normalized_witness :
    (0 ≤ emptyRecord.cpu_percent.getD 50 ∧ 1 ≤ numSamples 22050 (0.1 : ℝ)) ∧
      ∃ buf, metrics_to_sound 22050 (fun _ => (0 : ℝ)) emptyRecord 0.1 = some buf ∧
        maxAbs buf ≤ 1 ∧
        (1 < maxAbs (preRender 22050 (fun _ => (0 : ℝ)) emptyRecord 0.1) →
          buf = (preRender 22050 (fun _ => (0 : ℝ)) emptyRecord 0.1).map
            (fun x => x / maxAbs (preRender 22050 (fun _ => (0 : ℝ)) emptyRecord 0.1))) ∧
        (maxAbs (preRender 22050 (fun _ => (0 : ℝ)) emptyRecord 0.1) ≤ 1 →
          buf = preRender 22050 (fun _ => (0 : ℝ)) emptyRecord 0.1) := by
  have hn : 1 ≤ numSamples 22050 (0.1 : ℝ) := by
    rw [numSamples_22050_tenth]
    omega
  refine ⟨⟨by norm_num [emptyRecord], hn⟩, ?_⟩
  exact c1_render_normalized 22050 (fun _ => 0) emptyRecord 0.1
    (by norm_num [emptyRecord]) (by norm_num [emptyRecord])
    (by norm_num [emptyRecord]) (by norm_num [emptyRecord]) hn

/-- C7: every one of the four family scorers returns exactly 0.0 while its
history holds fewer than 10 samples, whatever those samples are. -/
theorem c7_cold_start (lc ln lt : List ℝ) (ls : List SensorSample)
    (h1 : lc.length < 10) (h2 : ln.length < 10) (h3 : ls.length < 10)
    (h4 : lt.length < 10) :
    cpuAnomalyScore lc = 0 ∧ networkAnomalyScore ln = 0 ∧
      sensorAnomalyScore ls = 0 ∧ timingAnomalyScore lt = 0 := by
  refine ⟨?_, ?_, ?_, ?_⟩
  · simp only [cpuAnomalyScore]
    rw [if_pos h1]
  · simp only [networkAnomalyScore]
    rw [if_pos h2]
  · simp only [sensorAnomalyScore]
    rw [if_pos h3]
  · simp only [timingAnomalyScore]
    rw [if_pos h4]

/-- Witness for C7 at empty histories. -/
theorem c7_cold_start_witness :
    ([] : List ℝ).length < 10 ∧
      (cpuAnomalyScore [] = 0 ∧ networkAnomalyScore [] = 0 ∧
        sensorAnomalyScore [] = 0 ∧ timingAnomalyScore [] = 0) :=
  ⟨by decide,
    c7_cold_start [] [] [] [] (by decide) (by decide) (by decide) (by decide)⟩

/-- C9: a duration yielding zero samples makes `metrics_to_sound` fail
(the peak of the empty buffer is taken, which raises in numpy), rather
than return an empty buffer: a positive sample count is an unstated
precondition of `render`. -/
theorem c9_zero_samples (rate : ℕ) (u : ℕ → ℝ) (m : MetricsRecord) (d : ℝ)
    (h : numSamples rate d = 0) : metrics_to_sound rate u m d = none := by
  have hnil : preRender rate u m d = [] := by
    apply List.eq_nil_of_length_eq_zero
    rw [length_preRender, h]
  rw [metrics_to_sound_eq, hnil]
  simp [normalize]

/-- Witness for C9 at duration 0. -/
theorem c9_zero_samples_witness :
    numSamples 22050 (0 : ℝ) = 0 ∧
      metrics_to_sound 22050 (fun _ => (0 : ℝ)) emptyRecord 0 = none :=
  ⟨numSamples_22050_zero,
    c9_zero_samples 22050 (fun _ => 0) emptyRecord 0 numSamples_22050_zero⟩

/-- C10: `metrics_to_sound` never fails because a consumed field is
absent: it renders any record exactly as it renders the record with the
defaults 50.0, 0.0, 50.0 and 0.0 substituted for the absent
`cpu_percent`, `network_rate`, `memory_percent` and `anomaly_score`. -/
theorem c10_absent_field_defaults (rate : ℕ) (u : ℕ → ℝ) (m : MetricsRecord)
    (d : ℝ) (hn : 1 ≤ numSamples rate d) :
    (∃ buf, metrics_to_sound rate u m d = some buf) ∧
      metrics_to_sound rate u m d = metrics_to_sound rate u (fillDefaults m) d := by
  obtain ⟨b, hb, -, -⟩ := metrics_to_sound_some rate u m d hn
  refine ⟨⟨b, hb⟩, ?_⟩
  have hpre : preRender rate u (fillDefaults m) d = preRender rate u m d := by
    simp [preRender, withNoise, withDissonance, baseSound, pulseTaken,
      dissonanceTaken, noiseTaken, renderBaseFreq, renderPulseRate,
      renderAmplitude, dissonantFrequency, fillDefaults]
  rw [metrics_to_sound_eq, metrics_to_sound_eq, hpre]

/-- Witness for C10 at the all-absent record, rate 22050 Hz, duration 0.1 s. -/
theorem c10_absent_field_defaults_witness :
    1 ≤ numSamples 22050 (0.1 : ℝ) ∧
      ((∃ buf, metrics_to_sound 22050 (fun _ => (0 : ℝ)) emptyRecord 0.1 = some buf) ∧
        metrics_to_sound 22050 (fun _ => (0 : ℝ)) emptyRecord 0.1 =
          metrics_to_sound 22050 (fun _ => (0 : ℝ)) (fillDefaults emptyRecord) 0.1) :=
  ⟨by rw [numSamples_22050_tenth]; omega,
    c10_absent_field_defaults 22050 (fun _ => 0) emptyRecord 0.1
      (by rw [numSamples_22050_tenth]; omega)⟩

/-- The record of the scenario in the spec:
`{cpu_percent: 50, network_rate: 1_000_000, memory_percent: 60,
anomaly_score: 0.3}`. -/
noncomputable def c2Record : MetricsRecord :=
  ⟨some 50, some 1000000, some 60, some 0.3⟩

/-- C2 (amended): for the scenario record with duration 0.1 at 22050 Hz,
`metrics_to_sound` returns a 2205-sample buffer with peak at most 1.0,
uses base frequency 500 Hz and takes the pulse path (`network_rate > 100`),
but adds neither the dissonant tone (the strict test `anomaly_score > 0.3`
fails at exactly 0.3) nor noise (`anomaly_score` is not above 0.6). -/
theorem c2_scenario (u : ℕ → ℝ) :
    (∃ buf, metrics_to_sound 22050 u c2Record 0.1 = some buf ∧
      buf.length = 2205 ∧ maxAbs buf ≤ 1) ∧
    renderBaseFreq c2Record = 500 ∧ pulseTaken c2Record ∧
      ¬ dissonanceTaken c2Record ∧ ¬ noiseTaken c2Record := by
  refine ⟨?_, ?_, ?_, ?_, ?_⟩
  · obtain ⟨b, hb, hlen, hle⟩ := metrics_to_sound_some 22050 u c2Record 0.1
      (by rw [numSamples_22050_tenth]; omega)
    exact ⟨b, hb, by rw [hlen, numSamples_22050_tenth], hle⟩
  · norm_num [renderBaseFreq, c2Record]
  · norm_num [pulseTaken, c2Record]
  · norm_num [dissonanceTaken, c2Record]
  · norm_num [noiseTaken, c2Record]

/-- Counterexample for C2 as stated: in the scenario record the anomaly
score is exactly 0.3, and the dissonance branch condition
`anomaly_score > 0.3` is strict, so no dissonant tone is added. -/
theorem c2_scenario_counterexample :
    c2Record.anomaly_score.getD 0 = 0.3 ∧ ¬ dissonanceTaken c2Record := by
  constructor
  · norm_num [c2Record]
  · norm_num [dissonanceTaken, c2Record]

/-- Witness for C2 with the zero noise source. -/
theorem c2_scenario_witness :
    (∃ buf, metrics_to_sound 22050 (fun _ => (0 : ℝ)) c2Record 0.1 = some buf ∧
      buf.length = 2205 ∧ maxAbs buf ≤ 1) ∧
    renderBaseFreq c2Record = 500 ∧ pulseTaken c2Record ∧
      ¬ dissonanceTaken c2Record ∧ ¬ noiseTaken c2Record :=
  c2_scenario (fun _ => 0)

/-- A record with base frequency 500 Hz and anomaly score 0.5. -/
noncomputable def c3Record : MetricsRecord :=
  ⟨some 50, some 0, some 50, some 0.5⟩

/-- C3 (amended): whenever `anomaly_score > 0.3` — whether or not the
noise stage at `> 0.6` also fires — the pre-normalization sound is the
noise stage applied to the base sound plus a dissonant tone whose
frequency is exactly `base_frequency * 1.414` — the code's rational
stand-in for the tritone ratio √2, not √2 itself — and whose amplitude is
`amplitude * anomaly_score * 0.5`. -/
theorem c3_dissonant_tone (rate : ℕ) (u : ℕ → ℝ) (m : MetricsRecord) (d : ℝ)
    (hdis : dissonanceTaken m) :
    preRender rate u m d =
      withNoise rate u m d
        (addBuf (baseSound rate m d)
          (generate_tone rate (renderBaseFreq m * 1.414) d
            (renderAmplitude m * m.anomaly_score.getD 0 * 0.5))) ∧
      dissonantFrequency m = renderBaseFreq m * 1.414 := by
  constructor
  · rw [preRender, withDissonance, if_pos hdis, dissonantFrequency]
  · rw [dissonantFrequency]

/-- A record with anomaly score 0.7: both dissonance and noise fire. -/
noncomputable def c3NoiseRecord : MetricsRecord :=
  ⟨some 50, some 0, some 50, some 0.7⟩

/-- Witness for C3 at a record with anomaly score 0.7, where the noise
stage fires as well as the dissonance stage. -/
theorem c3_dissonant_tone_witness :
    dissonanceTaken c3NoiseRecord ∧
      (preRender 22050 (fun _ => (0 : ℝ)) c3NoiseRecord 0.1 =
        withNoise 22050 (fun _ => (0 : ℝ)) c3NoiseRecord 0.1
          (addBuf (baseSound 22050 c3NoiseRecord 0.1)
            (generate_tone 22050 (renderBaseFreq c3NoiseRecord * 1.414) 0.1
              (renderAmplitude c3NoiseRecord *
                c3NoiseRecord.anomaly_score.getD 0 * 0.5))) ∧
        dissonantFrequency c3NoiseRecord = renderBaseFreq c3NoiseRecord * 1.414) :=
  ⟨by norm_num [dissonanceTaken, c3NoiseRecord],
    c3_dissonant_tone 22050 (fun _ => 0) c3NoiseRecord 0.1
      (by norm_num [dissonanceTaken, c3NoiseRecord])⟩

/-- Counterexample for C3 as stated: at base frequency 500 Hz the added
tone has frequency 707, which is not `500 * √2`; the code's constant
1.414 differs from the square root of two. -/
theorem c3_dissonant_tone_counterexample :
    dissonantFrequency c3Record ≠ renderBaseFreq c3Record * Real.sqrt 2 := by
  have hb : renderBaseFreq c3Record = 500 := by
    norm_num [renderBaseFreq, c3Record]
  rw [dissonantFrequency, hb]
  intro h
  have h2 : Real.sqrt 2 * Real.sqrt 2 = 2 := Real.mul_self_sqrt (by norm_num)
  have h717 : (500 : ℝ) * 1.414 = 707 := by norm_num
  rw [h717] at h
  have hsq : (707 : ℝ) * 707 = (500 * Real.sqrt 2) * (500 * Real.sqrt 2) := by
    rw [← h]
  nlinarith [hsq, h2]

/-! ## Helper lemmas: rolling statistics -/

theorem mem_lastN {x : α} {n : ℕ} {l : List α} (h : x ∈ lastN n l) : x ∈ l :=
  List.drop_subset _ _ h

theorem length_lastN (n : ℕ) (l : List α) (h : n ≤ l.length) :
    (lastN n l).length = n := by
  rw [lastN, List.length_drop]
  omega

theorem meanOf_nonneg {l : List ℝ} (h : ∀ x ∈ l, 0 ≤ x) : 0 ≤ meanOf l :=
  div_nonneg (List.sum_nonneg h) (Nat.cast_nonneg _)

theorem eq_zero_of_sum_eq_zero {l : List ℝ} (h : ∀ x ∈ l, 0 ≤ x)
    (hs : l.sum = 0) : ∀ x ∈ l, x = 0 := by
  induction l with
  | nil => intro x hx; cases hx
  | cons y t ih =>
      rw [List.sum_cons] at hs
      have hy : 0 ≤ y := h y (List.mem_cons_self y t)
      have ht : 0 ≤ t.sum :=
        List.sum_nonneg fun x hx => h x (List.mem_cons_of_mem y hx)
      intro x hx
      rcases List.mem_cons.mp hx with rfl | hx
      · linarith
      · exact ih (fun z hz => h z (List.mem_cons_of_mem y hz)) (by linarith) x hx

theorem varianceOf_of_all_zero {l : List ℝ} (h : ∀ x ∈ l, x = 0) :
    varianceOf l = 0 := by
  have hm : meanOf l = 0 := by
    rw [meanOf, List.sum_eq_zero h, zero_div]
  rw [varianceOf, hm]
  have hz : (l.map (fun x => (x - 0) ^ 2)).sum = 0 := by
    apply List.sum_eq_zero
    intro y hy
    rcases List.mem_map.mp hy with ⟨x, hx, rfl⟩
    rw [h x hx]
    norm_num
  rw [hz, zero_div]

/-- C4 (amended): with at least 10 accumulated (non-negative) total-byte-
rate samples, the network anomaly score is the coefficient of variation
`std-dev / (mean + 1e-6)` of the last 10 values capped at 1, a value in
[0, 1]; in the case where the mean of those values is exactly 0 the
returned score is 0.0 (the source returns early), not 1.0. -/
theorem c4_network_cv (l : List ℝ) (hlen : 10 ≤ l.length)
    (hnn : ∀ x ∈ l, 0 ≤ x) :
    networkAnomalyScore l =
      min (stdDevOf (lastN 10 l) / (meanOf (lastN 10 l) + 1e-6)) 1 ∧
    0 ≤ networkAnomalyScore l ∧ networkAnomalyScore l ≤ 1 ∧
    (meanOf (lastN 10 l) = 0 → networkAnomalyScore l = 0) := by
  have hnotlt : ¬ l.length < 10 := not_lt.mpr hlen
  have heq : networkAnomalyScore l =
      if meanOf (lastN 10 l) = 0 then 0
      else min (stdDevOf (lastN 10 l) / (meanOf (lastN 10 l) + 1e-6)) 1 := by
    simp only [networkAnomalyScore]
    rw [if_neg hnotlt]
  have hrnn : ∀ x ∈ lastN 10 l, 0 ≤ x := fun x hx => hnn x (mem_lastN hx)
  by_cases hm : meanOf (lastN 10 l) = 0
  · have hsum : (lastN 10 l).sum = 0 := by
      have hm' := hm
      rw [meanOf, div_eq_zero_iff] at hm'
      rcases hm' with h0 | h0
      · exact h0
      · rw [length_lastN 10 l hlen] at h0
        norm_num at h0
    have hz : ∀ x ∈ lastN 10 l, x = 0 := eq_zero_of_sum_eq_zero hrnn hsum
    have hstd : stdDevOf (lastN 10 l) = 0 := by
      rw [stdDevOf, varianceOf_of_all_zero hz, Real.sqrt_zero]
    rw [heq, if_pos hm]
    refine ⟨?_, le_refl 0, zero_le_one, fun _ => rfl⟩
    rw [hstd, hm, zero_div]
    norm_num
  · rw [heq, if_neg hm]
    have hmean : 0 ≤ meanOf (lastN 10 l) := meanOf_nonneg hrnn
    have hden : (0 : ℝ) ≤ meanOf (lastN 10 l) + 1e-6 := by
      have : (0 : ℝ) < 1e-6 := by norm_num
      linarith
    have hcv : 0 ≤ stdDevOf (lastN 10 l) / (meanOf (lastN 10 l) + 1e-6) :=
      div_nonneg (Real.sqrt_nonneg _) hden
    exact ⟨rfl, le_min hcv zero_le_one, min_le_right _ _,
      fun h0 => absurd h0 hm⟩

/-- Witness for C4 at a constant history of ten samples of value 1. -/
theorem c4_network_cv_witness :
    (10 ≤ (List.replicate 10 (1 : ℝ)).length ∧
      ∀ x ∈ List.replicate 10 (1 : ℝ), 0 ≤ x) ∧
    (networkAnomalyScore (List.replicate 10 (1 : ℝ)) =
        min (stdDevOf (lastN 10 (List.replicate 10 (1 : ℝ))) /
          (meanOf (lastN 10 (List.replicate 10 (1 : ℝ))) + 1e-6)) 1 ∧
      0 ≤ networkAnomalyScore (List.replicate 10 (1 : ℝ)) ∧
      networkAnomalyScore (List.replicate 10 (1 : ℝ)) ≤ 1 ∧
      (meanOf (lastN 10 (List.replicate 10 (1 : ℝ))) = 0 →
        networkAnomalyScore (List.replicate 10 (1 : ℝ)) = 0)) := by
  have hlen : 10 ≤ (List.replicate 10 (1 : ℝ)).length := by
    rw [List.length_replicate]
  have hnn : ∀ x ∈ List.replicate 10 (1 : ℝ), 0 ≤ x := by
    intro x hx
    rw [List.eq_of_mem_replicate hx]
    norm_num
  exact ⟨⟨hlen, hnn⟩, c4_network_cv (List.replicate 10 1) hlen hnn⟩

/-- Counterexample for C4 as stated: on a history of ten zero byte rates
the mean is 0 and the score returned is 0.0, not the claimed 1.0. -/
theorem c4_network_cv_counterexample :
    networkAnomalyScore (List.replicate 10 (0 : ℝ)) = 0 ∧
      networkAnomalyScore (List.replicate 10 (0 : ℝ)) ≠ 1 := by
  have hm : meanOf (lastN 10 (List.replicate 10 (0 : ℝ))) = 0 := by
    norm_num [lastN, meanOf, List.sum_replicate]
  have h0 : networkAnomalyScore (List.replicate 10 (0 : ℝ)) = 0 := by
    simp only [networkAnomalyScore]
    rw [if_neg (by rw [List.length_replicate]; omega), if_pos hm]
  refine ⟨h0, ?_⟩
  rw [h0]
  norm_num

/-- C5 (amended): for non-negative frequency, duration and amplitude,
`generate_tone` returns a buffer of length `⌊sample_rate * duration⌋` —
the Python `int(...)` truncation, not rounding to the nearest integer. -/
theorem c5_tone_length (rate : ℕ) (f d a : ℝ) (hf : 0 ≤ f) (hd : 0 ≤ d)
    (ha : 0 ≤ a) :
    (generate_tone rate f d a).length = (⌊(rate : ℝ) * d⌋).toNat := by
  rw [length_generate_tone, numSamples]

/-- Witness for C5 at 440 Hz, 0.1 s, amplitude 0.3. -/
theorem c5_tone_length_witness :
    ((0 : ℝ) ≤ 440 ∧ (0 : ℝ) ≤ 0.1 ∧ (0 : ℝ) ≤ 0.3) ∧
      (generate_tone 22050 440 (0.1 : ℝ) 0.3).length =
        (⌊((22050 : ℕ) : ℝ) * (0.1 : ℝ)⌋).toNat :=
  ⟨⟨by norm_num, by norm_num, by norm_num⟩,
    c5_tone_length 22050 440 0.1 0.3 (by norm_num) (by norm_num) (by norm_num)⟩

/-- Counterexample for C5 as stated: at duration 8/100000 s and 22050 Hz
the product is 1.764, so rounding to the nearest integer gives 2 samples,
but the buffer has `int(1.764) = 1` sample. -/
theorem c5_tone_length_counterexample :
    (generate_tone 22050 440 (8 / 100000 : ℝ) (3 / 10)).length ≠
      (round ((22050 : ℝ) * (8 / 100000))).toNat := by
  have hf : (⌊((22050 : ℕ) : ℝ) * (8 / 100000 : ℝ)⌋ : ℤ) = 1 := by
    rw [Int.floor_eq_iff]
    constructor <;> push_cast <;> norm_num
  have hr : round ((22050 : ℝ) * (8 / 100000)) = 2 := by
    rw [round_eq, Int.floor_eq_iff]
    constructor <;> push_cast <;> norm_num
  rw [length_generate_tone, numSamples, hf, hr]
  decide

theorem cpuScore_mem_unit (l : List ℝ) :
    0 ≤ cpuAnomalyScore l ∧ cpuAnomalyScore l ≤ 1 := by
  simp only [cpuAnomalyScore]
  by_cases hl : l.length < 10
  · rw [if_pos hl]
    norm_num
  · rw [if_neg hl]
    exact ⟨le_min (div_nonneg (Real.sqrt_nonneg _) (by norm_num)) zero_le_one,
      min_le_right _ _⟩

theorem networkScore_mem_unit (l : List ℝ) (h : ∀ x ∈ l, 0 ≤ x) :
    0 ≤ networkAnomalyScore l ∧ networkAnomalyScore l ≤ 1 := by
  simp only [networkAnomalyScore]
  by_cases hl : l.length < 10
  · rw [if_pos hl]
    norm_num
  · rw [if_neg hl]
    by_cases hm : meanOf (lastN 10 l) = 0
    · rw [if_pos hm]
      norm_num
    · rw [if_neg hm]
      have hmean : 0 ≤ meanOf (lastN 10 l) :=
        meanOf_nonneg fun x hx => h x (mem_lastN hx)
      have hden : (0 : ℝ) ≤ meanOf (lastN 10 l) + 1e-6 := by
        have : (0 : ℝ) < 1e-6 := by norm_num
        linarith
      exact ⟨le_min (div_nonneg (Real.sqrt_nonneg _) hden) zero_le_one,
        min_le_right _ _⟩

theorem sensorScore_mem_unit (l : List SensorSample)
    (h : ∀ s ∈ l, 0 ≤ s.memory_percent ∧ 0 ≤ s.disk_read_rate ∧
      0 ≤ s.disk_write_rate) :
    0 ≤ sensorAnomalyScore l ∧ sensorAnomalyScore l ≤ 1 := by
  simp only [sensorAnomalyScore]
  by_cases hl : l.length < 10
  · rw [if_pos hl]
    norm_num
  · rw [if_neg hl]
    have hmem : 0 ≤ meanOf ((lastN 10 l).map (fun s => s.memory_percent)) := by
      apply meanOf_nonneg
      intro x hx
      rcases List.mem_map.mp hx with ⟨s, hs, rfl⟩
      exact (h s (mem_lastN hs)).1
    have hdisk : 0 ≤
        (if meanOf ((lastN 10 l).map
            (fun s => s.disk_read_rate + s.disk_write_rate)) > 0 then
          min (stdDevOf ((lastN 10 l).map
              (fun s => s.disk_read_rate + s.disk_write_rate)) /
            (meanOf ((lastN 10 l).map
              (fun s => s.disk_read_rate + s.disk_write_rate)) + 1e-6)) 1
        else 0) := by
      by_cases hd : meanOf ((lastN 10 l).map
          (fun s => s.disk_read_rate + s.disk_write_rate)) > 0
      · rw [if_pos hd]
        have hden : (0 : ℝ) ≤ meanOf ((lastN 10 l).map
            (fun s => s.disk_read_rate + s.disk_write_rate)) + 1e-6 := by
          have : (0 : ℝ) < 1e-6 := by norm_num
          linarith
        exact le_min (div_nonneg (Real.sqrt_nonneg _) hden) zero_le_one
      · rw [if_neg hd]
    constructor
    · refine le_min ?_ zero_le_one
      have h100 : 0 ≤ meanOf ((lastN 10 l).map (fun s => s.memory_percent)) / 100 :=
        div_nonneg hmem (by norm_num)
      linarith
    · exact min_le_right _ _

theorem timingScore_mem_unit (l : List ℝ) (h : ∀ x ∈ l, 0 ≤ x) :
    0 ≤ timingAnomalyScore l ∧ timingAnomalyScore l ≤ 1 := by
  simp only [timingAnomalyScore]
  by_cases hl : l.length < 10
  · rw [if_pos hl]
    norm_num
  · rw [if_neg hl]
    have hmean : 0 ≤ meanOf (lastN 10 l) :=
      meanOf_nonneg fun x hx => h x (mem_lastN hx)
    refine ⟨le_min ?_ zero_le_one, min_le_right _ _⟩
    rw [div_one]
    exact hmean

/-- C6 (amended): each of the four family scorers returns a value in
[0.0, 1.0] for every finite sequence of non-negative observed values (the
CPU scorer needs no sign restriction, but the network, sensor and timing
scorers can return negative values when fed negative samples). -/
theorem c6_scores_unit_range (lc ln lt : List ℝ) (ls : List SensorSample)
    (h1 : ∀ x ∈ lc, 0 ≤ x) (h2 : ∀ x ∈ ln, 0 ≤ x)
    (h3 : ∀ s ∈ ls, 0 ≤ s.memory_percent ∧ 0 ≤ s.disk_read_rate ∧
      0 ≤ s.disk_write_rate)
    (h4 : ∀ x ∈ lt, 0 ≤ x) :
    (0 ≤ cpuAnomalyScore lc ∧ cpuAnomalyScore lc ≤ 1) ∧
    (0 ≤ networkAnomalyScore ln ∧ networkAnomalyScore ln ≤ 1) ∧
    (0 ≤ sensorAnomalyScore ls ∧ sensorAnomalyScore ls ≤ 1) ∧
    (0 ≤ timingAnomalyScore lt ∧ timingAnomalyScore lt ≤ 1) :=
  ⟨cpuScore_mem_unit lc, networkScore_mem_unit ln h2,
    sensorScore_mem_unit ls h3, timingScore_mem_unit lt h4⟩

/-- Witness for C6 at constant non-negative histories of ten samples. -/
theorem c6_scores_unit_range_witness :
    (∀ x ∈ List.replicate 10 (1 : ℝ), 0 ≤ x) ∧
    ((0 ≤ cpuAnomalyScore (List.replicate 10 (1 : ℝ)) ∧
        cpuAnomalyScore (List.replicate 10 (1 : ℝ)) ≤ 1) ∧
      (0 ≤ networkAnomalyScore (List.replicate 10 (1 : ℝ)) ∧
        networkAnomalyScore (List.replicate 10 (1 : ℝ)) ≤ 1) ∧
      (0 ≤ sensorAnomalyScore (List.replicate 10 (SensorSample.mk 1 1 1)) ∧
        sensorAnomalyScore (List.replicate 10 (SensorSample.mk 1 1 1)) ≤ 1) ∧
      (0 ≤ timingAnomalyScore (List.replicate 10 (1 : ℝ)) ∧
        timingAnomalyScore (List.replicate 10 (1 : ℝ)) ≤ 1)) := by
  have hr : ∀ x ∈ List.replicate 10 (1 : ℝ), 0 ≤ x := by
    intro x hx
    rw [List.eq_of_mem_replicate hx]
    norm_num
  have hs : ∀ s ∈ List.replicate 10 (SensorSample.mk 1 1 1),
      0 ≤ s.memory_percent ∧ 0 ≤ s.disk_read_rate ∧ 0 ≤ s.disk_write_rate := by
    intro s hsm
    rw [List.eq_of_mem_replicate hsm]
    norm_num
  exact ⟨hr, c6_scores_unit_range (List.replicate 10 1) (List.replicate 10 1)
    (List.replicate 10 1) (List.replicate 10 (SensorSample.mk 1 1 1)) hr hr hs hr⟩

/-- Counterexample for C6 as stated: fed ten jitter samples of value -1
(a sign the claim allows), the timing scorer returns -1, which is outside
[0.0, 1.0]. -/
theorem c6_scores_unit_range_counterexample :
    timingAnomalyScore (List.replicate 10 (-1 : ℝ)) < 0 := by
  have hm : meanOf (lastN 10 (List.replicate 10 (-1 : ℝ))) = -1 := by
    norm_num [lastN, meanOf, List.sum_replicate]
  simp only [timingAnomalyScore]
  rw [if_neg (by rw [List.length_replicate]; omega), hm, div_one]
  have hmin : min (-1 : ℝ) 1 = -1 := min_eq_left (by norm_num)
  rw [hmin]
  norm_num

/-! ## Helper lemma: mapM over Option -/

theorem mapM_eq_some_of_forall {α β : Type} (f : α → Option β) (l : List α)
    (h : ∀ a ∈ l, ∃ b, f a = some b) :
    ∃ bs : List β, l.mapM f = some bs := by
  induction l with
  | nil => exact ⟨[], rfl⟩
  | cons a t ih =>
      obtain ⟨b, hb⟩ := h a (List.mem_cons_self a t)
      obtain ⟨bs, hbs⟩ := ih fun x hx => h x (List.mem_cons_of_mem a hx)
      refine ⟨b :: bs, ?_⟩
      rw [List.mapM_cons, hb, hbs]
      rfl

/-- C8: `generate_soundscape` of the empty record list is the empty
buffer; for any record list (each record rendered with the per-call noise
source `u i`) it returns the concatenation, in input order, of the
individual `metrics_to_sound` buffers, whose length is the sum of the
individual rendered lengths. -/
theorem c8_soundscape_concat (rate : ℕ) (u : ℕ → ℕ → ℝ) (d : ℝ)
    (l : List MetricsRecord) (hn : 1 ≤ numSamples rate d) :
    generate_soundscape rate u [] d = some [] ∧
    ∃ sounds : List (List ℝ),
      (l.enum.mapM fun p => metrics_to_sound rate (u p.1) p.2 d) = some sounds ∧
      generate_soundscape rate u l d = some sounds.flatten ∧
      sounds.flatten.length = (sounds.map List.length).sum := by
  refine ⟨rfl, ?_⟩
  obtain ⟨sounds, hsounds⟩ := mapM_eq_some_of_forall
    (fun p => metrics_to_sound rate (u p.1) p.2 d) l.enum
    (fun p _ => (metrics_to_sound_some rate (u p.1) p.2 d hn).imp
      fun b hb => hb.1)
  refine ⟨sounds, hsounds, ?_, List.length_flatten sounds⟩
  cases l with
  | nil =>
      have hs : sounds = [] := by
        have : (([] : List MetricsRecord).enum.mapM
            fun p => metrics_to_sound rate (u p.1) p.2 d) = some [] := rfl
        rw [this] at hsounds
        exact (Option.some_inj.mp hsounds).symm
      rw [hs]
      rfl
  | cons a t =>
      rw [generate_soundscape, if_neg (by simp), hsounds]
      rfl

/-- Witness for C8 at a one-record list, 22050 Hz, duration 0.1 s. -/
theorem c8_soundscape_concat_witness :
    1 ≤ numSamples 22050 (0.1 : ℝ) ∧
      (generate_soundscape 22050 (fun _ _ => (0 : ℝ)) [] 0.1 = some [] ∧
        ∃ sounds : List (List ℝ),
          ([emptyRecord].enum.mapM
            (fun p => metrics_to_sound 22050 ((fun _ _ => (0 : ℝ)) p.1) p.2 0.1)) =
              some sounds ∧
          generate_soundscape 22050 (fun _ _ => (0 : ℝ)) [emptyRecord] 0.1 =
            some sounds.flatten ∧
          sounds.flatten.length = (sounds.map List.length).sum) :=
  ⟨by rw [numSamples_22050_tenth]; omega,
    c8_soundscape_concat 22050 (fun _ _ => 0) 0.1 [emptyRecord]
      (by rw [numSamples_22050_tenth]; omega)⟩

end EchoTrace
